import Mathlib

set_option autoImplicit false

/-!
Shallow embedding of `src/paperfilter/session.cpp` (dripcap's paperfilter
Session).  Collaborator classes that are not part of `src/` (PacketQueue,
PacketStore, SequenceSet, FilterThread, StreamDispatcher, Pcap, LogMessage's
key) are modelled from the specification, as marked on each definition.
The v8/libuv plumbing is modelled by plain data: a v8 option value becomes
`Option SessionConfig` (none for an empty or non-object value), a
`uv_async_send` becomes an action in an effect trace, and the async handler
bodies become pure functions of the session state.
-/

namespace Paperfilter

/-- Layer, restricted to the fields `Session::analyze` touches: the
namespace passed to the constructor, the name set by `setName`, and the
payload set by `setPayload`.  Payload bytes are modelled as `List Nat`. -/
structure Layer where
  ns : String
  name : String
  payload : List Nat
  deriving Repr, DecidableEq

/-- Packet, restricted to what `Session::analyze` uses: the captured bytes
returned by `payload()` and the ordered layer list extended by `addLayer`. -/
structure Packet where
  payload : List Nat
  layers : List Layer
  deriving Repr, DecidableEq

/-- Modelled from the spec: PacketQueue (packet_queue.hpp is not under
`src/`), a closable FIFO where `push` is a silent no-op after `close`. -/
structure PacketQueue where
  items : List Packet
  closed : Bool
  deriving Repr, DecidableEq

/-- Modelled from the spec: `PacketQueue.push` appends while the queue is
open and silently drops after close. -/
def PacketQueue.push (q : PacketQueue) (p : Packet) : PacketQueue :=
  if q.closed then q else { q with items := q.items ++ [p] }

/-- Modelled from the spec: PacketStore (packet_store.hpp is not under
`src/`), an append-only sequence-indexed repository; sequence numbers are
dense starting at 1, so the packet with sequence `i` sits at index `i-1`. -/
structure PacketStore where
  packets : List Packet
  deriving Repr, DecidableEq

/-- Modelled from the spec: `PacketStore.maxSeq` is the highest assigned
sequence number, i.e. the number of inserted packets. -/
def PacketStore.maxSeq (st : PacketStore) : Nat := st.packets.length

/-- LogMessage, restricted to the fields the deduplication key involves plus
the severity level (an index into the `levels` array of the handler). -/
structure LogMessage where
  level : Nat
  message : String
  domain : String
  resourceName : String
  lineNumber : Int
  deriving Repr, DecidableEq

/-- Deduplication key type: (domain, resourceName, lineNumber, message). -/
abbrev LogKey := String × String × Int × String

/-- Modelled from the spec: `LogMessage::key()` (log_message.hpp is not
under `src/`) is the stable deduplication key
(domain, resourceName, lineNumber, message). -/
def LogMessage.key (m : LogMessage) : LogKey :=
  (m.domain, m.resourceName, m.lineNumber, m.message)

/-- Modelled from the spec: SequenceSet (sequence_set.hpp is not under
`src/`), an ordered set of sequence numbers that never removes entries.
Represented as a strictly sorted list. -/
structure SequenceSet where
  seqs : List Nat
  deriving Repr, DecidableEq

/-- Fresh empty SequenceSet, as owned by a newly constructed
`FilterThread::Context`. -/
def SequenceSet.empty : SequenceSet := ⟨[]⟩

/-- Sorted no-duplicate insertion into the underlying list. -/
def insertSorted (n : Nat) : List Nat → List Nat
  | [] => [n]
  | x :: xs =>
    if n < x then n :: x :: xs
    else if n = x then x :: xs
    else x :: insertSorted n xs

/-- Modelled from the spec: `SequenceSet.insert` records a sequence number. -/
def SequenceSet.insert (s : SequenceSet) (n : Nat) : SequenceSet :=
  ⟨insertSorted n s.seqs⟩

/-- Modelled from the spec: `SequenceSet.get start end` returns the ordered
members of the inclusive-exclusive range, as called by
`Session::getFiltered`. -/
def SequenceSet.get (s : SequenceSet) (start stop : Nat) : List Nat :=
  s.seqs.filter (fun x => start ≤ x && x < stop)

/-- Modelled from the spec: `SequenceSet.size`. -/
def SequenceSet.size (s : SequenceSet) : Nat := s.seqs.length

/-- FilterContext from session.cpp: the worker vector (only its length is
observable here) and the shared `FilterThread::Context` fields that
session.cpp itself fills in (`filter`, `script`, and the `packets` result
set; the store pointer and callbacks carry no state of their own). -/
structure FilterContext where
  workers : Nat
  filter : String
  script : String
  packets : SequenceSet
  deriving Repr, DecidableEq

/-- StreamDispatcher, restricted to the only configuration session.cpp
gives it that the claims mention: the worker thread count
(`streamCtx->threads = d->threads`). -/
structure StreamDispatcher where
  threads : Int
  deriving Repr, DecidableEq

/-- Modelled from the spec: the frame source (pcap.hpp is not under
`src/`); only its running flag matters to the Session claims. -/
structure Pcap where
  running : Bool
  deriving Repr, DecidableEq

/-- Session option object, as read by the constructor via `get_option`:
each field is `none` when the key is absent (leaving the member at its
prior value).  A non-object or empty option value is `none` at the
`Option SessionConfig` level of `mkSession`. -/
structure SessionConfig where
  ns : Option String
  filterScript : Option String
  threads : Option Int
  deriving Repr, DecidableEq

/-- State of `Session::Private` plus the worker objects the constructor
creates.  `dissectorThreads` is the number of `DissectorThread` objects,
`filterThreads` the name-keyed map of filter groups, `recentLogs` the
deduplication map guarded by `errorMutex`. -/
structure SessionState where
  queue : PacketQueue
  store : PacketStore
  dissectorThreads : Nat
  filterThreads : List (String × FilterContext)
  ns : String
  filterScript : String
  streamDispatcher : Option StreamDispatcher
  pcap : Option Pcap
  recentLogs : List (LogKey × LogMessage)
  capturing : Bool
  threads : Int
  deriving Repr, DecidableEq

/-- Association-list lookup for the filter-group map
(`d->filterThreads.find(name)`). -/
def lookupG : List (String × FilterContext) → String → Option FilterContext
  | [], _ => none
  | (n, c) :: rest, name => if n = name then some c else lookupG rest name

/-- Association-list erase for the filter-group map
(`d->filterThreads.erase(name)`). -/
def eraseKey : List (String × FilterContext) → String → List (String × FilterContext)
  | [], _ => []
  | (n, c) :: rest, name =>
    if n = name then eraseKey rest name else (n, c) :: eraseKey rest name

/-- Update-in-place of the group registered under `name`, when present;
models a live worker mutating the `Context` it shares with the map. -/
def updateGroup (l : List (String × FilterContext)) (name : String)
    (f : FilterContext → FilterContext) : List (String × FilterContext) :=
  match l with
  | [] => []
  | (n, c) :: rest =>
    if n = name then (n, f c) :: rest else (n, c) :: updateGroup rest name f

/-- Association-list overwrite-or-append for the log deduplication map
(`recentLogs[msg.key()] = msg`). -/
def logUpdate (k : LogKey) (v : LogMessage) :
    List (LogKey × LogMessage) → List (LogKey × LogMessage)
  | [] => [(k, v)]
  | (k', v') :: rest =>
    if k' = k then (k, v) :: rest else (k', v') :: logUpdate k v rest

/-- Association-list lookup for the log deduplication map. -/
def lookupLog : List (LogKey × LogMessage) → LogKey → Option LogMessage
  | [], _ => none
  | (k', v) :: rest, k => if k' = k then some v else lookupLog rest k

/-- Member state right after `Session::Private::Private()`: every member at
its default.  The C++ `int threads` member gets no value from the default
constructor, so its indeterminate content is taken as a parameter. -/
def initPrivate (indet : Int) : SessionState :=
  { queue := ⟨[], false⟩
  , store := ⟨[]⟩
  , dissectorThreads := 0
  , filterThreads := []
  , ns := ""
  , filterScript := ""
  , streamDispatcher := none
  , pcap := none
  , recentLogs := []
  , capturing := false
  , threads := indet }

/-- Session::Session(option).  `hw` is `std::thread::hardware_concurrency()`
and `indet` the indeterminate initial value of `d->threads`; `opt = none`
models an empty or non-object option value, on which the constructor
returns right after allocating `Private`. -/
def mkSession (hw indet : Int) (opt : Option SessionConfig) : SessionState :=
  match opt with
  | none => initPrivate indet
  | some cfg =>
    let t := max 1 ((cfg.threads.getD hw) - 1)
    { initPrivate indet with
      ns := cfg.ns.getD ""
    , filterScript := cfg.filterScript.getD ""
    , threads := t
    , dissectorThreads := t.toNat
    , streamDispatcher := some ⟨t⟩
    , pcap := some ⟨false⟩ }

/-- Session::analyze: builds `Layer(d->ns)`, names it "Raw Layer", copies the
packet payload into it, appends it to the packet's layers, and pushes the
packet onto the queue.  Note the source does this unconditionally. -/
def Session.analyze (s : SessionState) (pkt : Packet) : SessionState :=
  let layer : Layer := { ns := s.ns, name := "Raw Layer", payload := pkt.payload }
  { s with queue := s.queue.push { pkt with layers := pkt.layers ++ [layer] } }

/-- Session::filter(name, expr): erases any group under `name`; when the
expression is non-empty, installs a fresh group with a new empty result set
and `d->threads` workers; finally raises the status signal (stateless in
this model; the raise is covered by the control-action traces below). -/
def Session.filter (s : SessionState) (name expr : String) : SessionState :=
  let m := eraseKey s.filterThreads name
  if expr = "" then { s with filterThreads := m }
  else
    { s with filterThreads :=
        (name,
          { workers := s.threads.toNat
          , filter := expr
          , script := s.filterScript
          , packets := SequenceSet.empty }) :: m }

/-- Session::getFiltered(name, start, end): empty when no group is
registered under `name`, otherwise the range read of that group's result
set. -/
def Session.getFiltered (s : SessionState) (name : String)
    (start stop : Nat) : List Nat :=
  match lookupG s.filterThreads name with
  | none => []
  | some c => c.packets.get start stop

/-- Asynchronous events that can hit the filter-group map between control
calls: another `Session::filter` call, or a filter worker inserting a
matched sequence into the result set of the group currently registered
under its name (workers of a replaced group hold the discarded context and
so cannot reach the map). -/
inductive Event where
  | filterCmd (name expr : String)
  | workerInsert (name : String) (seq : Nat)
  deriving Repr, DecidableEq

/-- Effect of one event on the session state. -/
def applyEvent (s : SessionState) : Event → SessionState
  | .filterCmd name expr => Session.filter s name expr
  | .workerInsert name seq =>
    { s with filterThreads :=
        updateGroup s.filterThreads name (fun c => { c with packets := c.packets.insert seq }) }

/-- Run a list of events in order. -/
def runTrace (s : SessionState) (evs : List Event) : SessionState :=
  evs.foldl applyEvent s

/-- Session::Private::log: records the message in the deduplication map
under its key, overwriting any previous holder of the key, then signals the
log async (delivery is `deliverLogs`). -/
def logRecord (s : SessionState) (msg : LogMessage) : SessionState :=
  { s with recentLogs := logUpdate msg.key msg s.recentLogs }

/-- Body of the `logCbAsync` handler: swaps the deduplication map out
(leaving it empty) and delivers its entries as the batch. -/
def deliverLogs (s : SessionState) : List LogMessage × SessionState :=
  (s.recentLogs.map Prod.snd, { s with recentLogs := [] })

/-- Status payload delivered by the `statusCbAsync` handler. -/
structure StatusPayload where
  capturing : Bool
  packets : Nat
  filtered : List (String × Nat)
  deriving Repr, DecidableEq

/-- Body of the `statusCbAsync` handler: reads the capturing flag,
`store.maxSeq()`, and for each installed group the size of its result set. -/
def statusPayload (s : SessionState) : StatusPayload :=
  { capturing := s.capturing
  , packets := s.store.maxSeq
  , filtered := s.filterThreads.map (fun p => (p.1, p.2.packets.size)) }

/-- Lookup in the `filtered` field of a status payload. -/
def lookupN : List (String × Nat) → String → Option Nat
  | [], _ => none
  | (n, c) :: rest, name => if n = name then some c else lookupN rest name

/-- Externally visible steps taken by `Session::start` and
`Session::stop`, in program order. -/
inductive ControlAction where
  | pcapStart
  | pcapStop
  | setCapturing (b : Bool)
  | raiseStatus
  deriving Repr, DecidableEq

/-- Session::start: `d->pcap->start()`, then `d->capturing = true`, then
`uv_async_send(&d->statusCbAsync)`.  Returns the new state and the ordered
action trace. -/
def Session.start (s : SessionState) : SessionState × List ControlAction :=
  let s1 := { s with pcap := s.pcap.map (fun p : Pcap => { p with running := true }) }
  ({ s1 with capturing := true },
   [ControlAction.pcapStart, ControlAction.setCapturing true, ControlAction.raiseStatus])

/-- Session::stop: `d->pcap->stop()`, then `d->capturing = false`, then
`uv_async_send(&d->statusCbAsync)`. -/
def Session.stop (s : SessionState) : SessionState × List ControlAction :=
  let s1 := { s with pcap := s.pcap.map (fun p : Pcap => { p with running := false }) }
  ({ s1 with capturing := false },
   [ControlAction.pcapStop, ControlAction.setCapturing false, ControlAction.raiseStatus])

/-- Teardown steps of `Session::Private::~Private`, one per statement. -/
inductive TeardownAction where
  | closeQueue
  | destroyDissectorThreads
  | destroyFilterThreads
  | destroyStreamDispatcher
  | destroyPcap
  | closeStatusAsync
  | closeLogAsync
  deriving Repr, DecidableEq

/-- Statement order of `Session::Private::~Private`. -/
def destructorActions : List TeardownAction :=
  [TeardownAction.closeQueue
  , TeardownAction.destroyDissectorThreads
  , TeardownAction.destroyFilterThreads
  , TeardownAction.destroyStreamDispatcher
  , TeardownAction.destroyPcap
  , TeardownAction.closeStatusAsync
  , TeardownAction.closeLogAsync]

/-- Contents of the result set of the group registered under `name`
(empty when no group is registered). -/
def groupSet (s : SessionState) (name : String) : List Nat :=
  ((lookupG s.filterThreads name).map (fun c => c.packets.seqs)).getD []

/-- True exactly on worker-insert events. -/
def Event.isInsert : Event → Bool
  | .workerInsert _ _ => true
  | .filterCmd _ _ => false

/-- Last message of the list whose deduplication key is `k`. -/
def lastKey : List LogMessage → LogKey → Option LogMessage
  | [], _ => none
  | m :: rest, k =>
    match lastKey rest k with
    | some r => some r
    | none => if m.key = k then some m else none

/-- Well-formedness of the log deduplication map: keys are pairwise
distinct and every entry is stored under its own key. -/
def WfLogMap (l : List (LogKey × LogMessage)) : Prop :=
  (l.map Prod.fst).Nodup ∧ ∀ p ∈ l, p.2.key = p.1

/-- Concrete option object used to evaluate the theorems below. -/
def cfgW : SessionConfig := ⟨some "n", some "fs", some 4⟩

/-- Concrete session built from `cfgW`. -/
def sessW : SessionState := mkSession 8 0 (some cfgW)

/-- Concrete namespace root layer, as a frame source would provide it. -/
def rawW : Layer := ⟨"n", "Raw Layer", [170]⟩

/-- Concrete packet already carrying the namespace root layer. -/
def pktW : Packet := ⟨[170], [rawW]⟩

/-- Concrete session with a filter group "f" whose result set holds 5. -/
def sGrpW : SessionState :=
  applyEvent (Session.filter sessW "f" "true") (Event.workerInsert "f" 5)

/-- Concrete log messages: `msgA2` shares the key of `msgA` (the key
ignores the level), `msgB` has a different key. -/
def msgA : LogMessage := ⟨3, "boom", "dissector", "eth.js", 7⟩

/-- Second concrete log message, distinct key. -/
def msgB : LogMessage := ⟨1, "hello", "filter", "f.js", 2⟩

/-- Third concrete log message, same key as `msgA`. -/
def msgA2 : LogMessage := ⟨2, "boom", "dissector", "eth.js", 7⟩

/-- Concrete emission sequence with a repeated key. -/
def msgsW : List LogMessage := [msgA, msgB, msgA2]

/-- Folding step of the log deduplication map. -/
def logStep (a : List (LogKey × LogMessage)) (m : LogMessage) :
    List (LogKey × LogMessage) :=
  logUpdate m.key m a

/-- Erasing a key makes it unresolvable. -/
theorem lookupG_eraseKey_self (l : List (String × FilterContext)) (name : String) :
    lookupG (eraseKey l name) name = none := by
  induction l with
  | nil => rfl
  | cons hd tl ih =>
    obtain ⟨n, c⟩ := hd
    by_cases h : n = name
    · simp [eraseKey, h, ih]
    · simp [eraseKey, lookupG, h, ih]

/-- Erasing a key leaves the other keys alone. -/
theorem lookupG_eraseKey_ne (l : List (String × FilterContext)) {k name : String}
    (h : k ≠ name) : lookupG (eraseKey l name) k = lookupG l k := by
  induction l with
  | nil => rfl
  | cons hd tl ih =>
    obtain ⟨n, c⟩ := hd
    by_cases h1 : n = name
    · subst h1
      simp [eraseKey, lookupG, Ne.symm h, ih]
    · by_cases h2 : n = k <;> simp [eraseKey, lookupG, h, h1, h2, ih]

/-- Updating the group under `name` maps `f` over the lookup result. -/
theorem lookupG_updateGroup_self (l : List (String × FilterContext)) (name : String)
    (f : FilterContext → FilterContext) :
    lookupG (updateGroup l name f) name = (lookupG l name).map f := by
  induction l with
  | nil => rfl
  | cons hd tl ih =>
    obtain ⟨n, c⟩ := hd
    by_cases h : n = name <;> simp [updateGroup, lookupG, h, ih]

/-- Updating the group under `name` leaves the other keys alone. -/
theorem lookupG_updateGroup_ne (l : List (String × FilterContext))
    (f : FilterContext → FilterContext) {k name : String} (h : k ≠ name) :
    lookupG (updateGroup l name f) k = lookupG l k := by
  induction l with
  | nil => rfl
  | cons hd tl ih =>
    obtain ⟨n, c⟩ := hd
    by_cases h1 : n = name
    · subst h1
      simp [updateGroup, lookupG, Ne.symm h, ih]
    · by_cases h2 : n = k <;> simp [updateGroup, lookupG, h, h1, h2, ih]

/-- Lookup of the group named in a `Session::filter` call: gone on an empty
expression, a fresh context otherwise. -/
theorem lookupG_filter_self (s : SessionState) (name expr : String) :
    lookupG (Session.filter s name expr).filterThreads name =
      if expr = "" then none
      else some ⟨s.threads.toNat, expr, s.filterScript, SequenceSet.empty⟩ := by
  by_cases h : expr = "" <;>
    simp [Session.filter, h, lookupG, lookupG_eraseKey_self]

/-- Lookup of any other group is untouched by a `Session::filter` call. -/
theorem lookupG_filter_ne (s : SessionState) (expr : String) {k name : String}
    (h : k ≠ name) :
    lookupG (Session.filter s name expr).filterThreads k = lookupG s.filterThreads k := by
  by_cases he : expr = "" <;>
    simp [Session.filter, he, lookupG, Ne.symm h, lookupG_eraseKey_ne _ h]

/-- Membership in a sorted insertion. -/
theorem mem_insertSorted (x n : Nat) (l : List Nat) :
    x ∈ insertSorted n l ↔ x = n ∨ x ∈ l := by
  induction l with
  | nil => simp [insertSorted]
  | cons a as ih =>
    by_cases h1 : n < a
    · simp [insertSorted, h1, List.mem_cons]
    · by_cases h2 : n = a
      · subst h2
        simp [insertSorted, h1, List.mem_cons]
      · simp [insertSorted, h1, h2, List.mem_cons, ih]
        tauto

/-- Values read by `getFiltered` come from the group's result set. -/
theorem mem_getFiltered {s : SessionState} {name : String} {start stop x : Nat}
    (h : x ∈ Session.getFiltered s name start stop) : x ∈ groupSet s name := by
  unfold Session.getFiltered at h
  cases hl : lookupG s.filterThreads name with
  | none => rw [hl] at h; simp at h
  | some c =>
    rw [hl] at h
    have h2 : x ∈ c.packets.seqs ∧ (start ≤ x ∧ x < stop) := by
      simpa [SequenceSet.get, List.mem_filter] using h
    simp [groupSet, hl]
    exact h2.1

/-- One event can only add a value to a group's set by an insert event
aimed at that group. -/
theorem mem_groupSet_applyEvent {s : SessionState} {ev : Event} {name : String} {x : Nat}
    (h : x ∈ groupSet (applyEvent s ev) name) :
    x ∈ groupSet s name ∨ ev = Event.workerInsert name x := by
  cases ev with
  | filterCmd n e =>
    by_cases hn : name = n
    · subst hn
      exfalso
      rw [show applyEvent s (Event.filterCmd name e) = Session.filter s name e from rfl] at h
      by_cases he : e = ""
      · subst he
        simp [groupSet, lookupG_filter_self] at h
      · simp [groupSet, lookupG_filter_self, he, SequenceSet.empty] at h
    · left
      simpa [groupSet,
        show applyEvent s (Event.filterCmd n e) = Session.filter s n e from rfl,
        lookupG_filter_ne s e hn] using h
  | workerInsert n seq =>
    have heq : (applyEvent s (Event.workerInsert n seq)).filterThreads
        = updateGroup s.filterThreads n
            (fun c => { c with packets := c.packets.insert seq }) := rfl
    by_cases hn : name = n
    · subst hn
      cases hl : lookupG s.filterThreads name with
      | none => simp [groupSet, heq, lookupG_updateGroup_self, hl] at h
      | some c =>
        simp [groupSet, heq, lookupG_updateGroup_self, hl, SequenceSet.insert] at h
        rcases (mem_insertSorted x seq c.packets.seqs).mp h with h1 | h2
        · right; rw [h1]
        · left
          simp [groupSet, hl]
          exact h2
    · left
      simpa [groupSet, heq, lookupG_updateGroup_ne _ _ hn] using h

/-- Across a trace, values of a group's set either predate the trace or
are inserted by a worker-insert event of the trace. -/
theorem mem_groupSet_runTrace (evs : List Event) (name : String) (x : Nat) :
    ∀ s : SessionState, x ∈ groupSet (runTrace s evs) name →
      x ∈ groupSet s name ∨ Event.workerInsert name x ∈ evs := by
  induction evs with
  | nil => intro s h; exact Or.inl h
  | cons ev rest ih =>
    intro s h
    have h1 := ih (applyEvent s ev) (by simpa [runTrace] using h)
    rcases h1 with h2 | h2
    · rcases mem_groupSet_applyEvent h2 with h3 | h3
      · exact Or.inl h3
      · right; rw [h3]; exact List.mem_cons_self _ _
    · right; exact List.mem_cons_of_mem _ h2

/-- Worker-insert events never resurrect an absent group. -/
theorem lookupG_none_runTrace (evs : List Event) (name : String) :
    ∀ s : SessionState, evs.all Event.isInsert = true →
      lookupG s.filterThreads name = none →
      lookupG (runTrace s evs).filterThreads name = none := by
  induction evs with
  | nil => intro s _ h; simpa [runTrace] using h
  | cons ev rest ih =>
    intro s hall h
    rw [List.all_cons, Bool.and_eq_true] at hall
    cases ev with
    | filterCmd a b => simp [Event.isInsert] at hall
    | workerInsert n seq =>
      have h2 : lookupG (applyEvent s (Event.workerInsert n seq)).filterThreads name
          = none := by
        by_cases hn : name = n
        · subst hn
          simp [applyEvent, lookupG_updateGroup_self, h]
        · simpa [applyEvent, lookupG_updateGroup_ne _ _ hn] using h
      simpa [runTrace] using ih (applyEvent s (Event.workerInsert n seq)) hall.2 h2

/-- Lookup after a log-map overwrite. -/
theorem lookupLog_logUpdate (k : LogKey) (v : LogMessage)
    (l : List (LogKey × LogMessage)) (q : LogKey) :
    lookupLog (logUpdate k v l) q = if q = k then some v else lookupLog l q := by
  induction l with
  | nil =>
    by_cases h : q = k
    · subst h; simp [logUpdate, lookupLog]
    · simp [logUpdate, lookupLog, h, Ne.symm h]
  | cons hd rest ih =>
    obtain ⟨k0, v0⟩ := hd
    by_cases h0 : k0 = k
    · subst h0
      by_cases h : q = k0
      · subst h; simp [logUpdate, lookupLog]
      · simp [logUpdate, lookupLog, h, Ne.symm h]
    · by_cases h2 : k0 = q
      · subst h2
        simp [logUpdate, lookupLog, h0, Ne.symm h0]
      · simp [logUpdate, lookupLog, h0, h2, ih]

/-- Entries of a log-map overwrite come from the new pair or the old map. -/
theorem mem_logUpdate {k : LogKey} {v : LogMessage} {l : List (LogKey × LogMessage)}
    {p : LogKey × LogMessage} (h : p ∈ logUpdate k v l) : p = (k, v) ∨ p ∈ l := by
  induction l with
  | nil => simpa [logUpdate] using h
  | cons hd rest ih =>
    obtain ⟨k0, v0⟩ := hd
    by_cases h0 : k0 = k
    · subst h0
      simp [logUpdate] at h
      rcases h with h | h
      · left; simp [h]
      · right; simp [h]
    · simp [logUpdate, h0] at h
      rcases h with h | h
      · right; simp [h]
      · rcases ih h with h1 | h1
        · exact Or.inl h1
        · right; simp [h1]

/-- Keys after a log-map overwrite. -/
theorem mem_keys_logUpdate (k : LogKey) (v : LogMessage)
    (l : List (LogKey × LogMessage)) (q : LogKey) :
    q ∈ (logUpdate k v l).map Prod.fst ↔ q = k ∨ q ∈ l.map Prod.fst := by
  induction l with
  | nil => simp [logUpdate]
  | cons hd rest ih =>
    obtain ⟨k0, v0⟩ := hd
    by_cases h0 : k0 = k
    · subst h0
      simp [logUpdate]
    · simp [logUpdate, h0, ih]
      tauto

/-- Overwriting preserves pairwise-distinct keys. -/
theorem nodup_keys_logUpdate (k : LogKey) (v : LogMessage) :
    ∀ l : List (LogKey × LogMessage),
      (l.map Prod.fst).Nodup → ((logUpdate k v l).map Prod.fst).Nodup := by
  intro l
  induction l with
  | nil => intro _; simp [logUpdate]
  | cons hd rest ih =>
    intro h
    obtain ⟨k0, v0⟩ := hd
    rw [List.map_cons, List.nodup_cons] at h
    by_cases h0 : k0 = k
    · subst h0
      simpa [logUpdate, List.nodup_cons] using h
    · rw [show logUpdate k v ((k0, v0) :: rest) = (k0, v0) :: logUpdate k v rest from by
        simp [logUpdate, h0]]
      rw [List.map_cons, List.nodup_cons]
      refine ⟨?_, ih h.2⟩
      intro hmem
      rcases (mem_keys_logUpdate k v rest k0).mp hmem with h1 | h1
      · exact h0 h1
      · exact h.1 h1

/-- Overwriting with a self-keyed entry preserves key consistency. -/
theorem entries_logUpdate {k : LogKey} {v : LogMessage}
    {l : List (LogKey × LogMessage)} (hv : v.key = k)
    (hc : ∀ p ∈ l, p.2.key = p.1) : ∀ p ∈ logUpdate k v l, p.2.key = p.1 := by
  intro p hp
  rcases mem_logUpdate hp with h | h
  · rw [h]; exact hv
  · exact hc p h

/-- One `Private::log` step preserves log-map well-formedness. -/
theorem wf_logUpdate {l : List (LogKey × LogMessage)} {k : LogKey} {v : LogMessage}
    (hv : v.key = k) (h : WfLogMap l) : WfLogMap (logUpdate k v l) :=
  ⟨nodup_keys_logUpdate k v l h.1, entries_logUpdate hv h.2⟩

/-- Folding emissions preserves log-map well-formedness. -/
theorem wf_foldl (msgs : List LogMessage) :
    ∀ acc, WfLogMap acc → WfLogMap (msgs.foldl logStep acc) := by
  induction msgs with
  | nil => intro acc h; exact h
  | cons m rest ih =>
    intro acc h
    rw [List.foldl_cons]
    exact ih _ (wf_logUpdate rfl h)

/-- Relate the stateful fold of `Private::log` to the pure map fold. -/
theorem recentLogs_foldl (msgs : List LogMessage) :
    ∀ s : SessionState,
      (msgs.foldl logRecord s).recentLogs = msgs.foldl logStep s.recentLogs := by
  induction msgs with
  | nil => intro s; rfl
  | cons m rest ih =>
    intro s
    rw [List.foldl_cons, List.foldl_cons]
    rw [ih (logRecord s m)]
    rfl

/-- Lookup of a fold of overwrites is the last emission under the key. -/
theorem lookupLog_foldl (msgs : List LogMessage) (k : LogKey) :
    ∀ acc : List (LogKey × LogMessage),
      lookupLog (msgs.foldl logStep acc) k =
        match lastKey msgs k with
        | some r => some r
        | none => lookupLog acc k := by
  induction msgs with
  | nil => intro acc; rfl
  | cons m rest ih =>
    intro acc
    rw [List.foldl_cons, ih (logStep acc m)]
    cases hl : lastKey rest k with
    | some r => simp [lastKey, hl]
    | none =>
      simp only [lastKey, hl, logStep, lookupLog_logUpdate]
      by_cases h : k = m.key
      · subst h; simp
      · simp [h, Ne.symm h]

/-- A successful lookup means the key is present. -/
theorem lookupLog_mem_keys {l : List (LogKey × LogMessage)} {k : LogKey}
    {v : LogMessage} (h : lookupLog l k = some v) : k ∈ l.map Prod.fst := by
  induction l with
  | nil => simp [lookupLog] at h
  | cons hd rest ih =>
    obtain ⟨k0, v0⟩ := hd
    by_cases h0 : k0 = k
    · simp [h0]
    · rw [lookupLog, if_neg h0] at h
      simp [ih h]

/-- In a well-formed log map, a value is found under its own key. -/
theorem lookup_of_mem_values {l : List (LogKey × LogMessage)} {m : LogMessage}
    (hw : WfLogMap l) (h : m ∈ l.map Prod.snd) : lookupLog l m.key = some m := by
  induction l with
  | nil => simp at h
  | cons hd rest ih =>
    obtain ⟨k0, v0⟩ := hd
    obtain ⟨hnd, hcons⟩ := hw
    rw [List.map_cons, List.nodup_cons] at hnd
    rw [List.map_cons] at h
    rcases List.mem_cons.mp h with h1 | h1
    · subst h1
      have hk : m.key = k0 := hcons (k0, m) (List.mem_cons_self _ _)
      rw [lookupLog, if_pos hk.symm]
    · have hrest : WfLogMap rest :=
        ⟨hnd.2, fun p hp => hcons p (List.mem_cons_of_mem _ hp)⟩
      have ihm := ih hrest h1
      rw [lookupLog, if_neg ?_]
      · exact ihm
      · intro hk0
        exact hnd.1 (by rw [hk0]; exact lookupLog_mem_keys ihm)

/-- Under key consistency, the keys of the values are the stored keys. -/
theorem values_keys_eq {l : List (LogKey × LogMessage)}
    (hc : ∀ p ∈ l, p.2.key = p.1) :
    (l.map Prod.snd).map LogMessage.key = l.map Prod.fst := by
  induction l with
  | nil => rfl
  | cons hd rest ih =>
    simp only [List.map_cons, List.cons.injEq]
    exact ⟨hc hd (List.mem_cons_self _ _),
      ih (fun p hp => hc p (List.mem_cons_of_mem _ hp))⟩

/-- Overwriting with the same pair twice equals overwriting once. -/
theorem logUpdate_idem (k : LogKey) (v : LogMessage) :
    ∀ l, logUpdate k v (logUpdate k v l) = logUpdate k v l := by
  intro l
  induction l with
  | nil => simp [logUpdate]
  | cons hd rest ih =>
    obtain ⟨k0, v0⟩ := hd
    by_cases h : k0 = k
    · simp [logUpdate, h]
    · simp [logUpdate, h, ih]

/-- Recording the same message twice equals recording it once. -/
theorem logRecord_idem (s : SessionState) (m : LogMessage) :
    logRecord (logRecord s m) m = logRecord s m := by
  simp [logRecord, logUpdate_idem]

/-- Recording a message any positive number of times equals recording it
once. -/
theorem foldl_replicate (m : LogMessage) :
    ∀ (n : Nat) (s : SessionState),
      (List.replicate (n + 1) m).foldl logRecord s = logRecord s m := by
  intro n
  induction n with
  | zero => intro s; rfl
  | succ n ih =>
    intro s
    rw [List.replicate_succ, List.foldl_cons, ih (logRecord s m), logRecord_idem]

/-- Status-payload lookup agrees with the group map. -/
theorem lookupN_statusFiltered (l : List (String × FilterContext)) (name : String) :
    lookupN (l.map (fun p => (p.1, p.2.packets.size))) name
      = (lookupG l name).map (fun c => c.packets.size) := by
  induction l with
  | nil => rfl
  | cons hd rest ih =>
    obtain ⟨n, c⟩ := hd
    by_cases h : n = name <;> simp [lookupN, lookupG, h, ih]

/-- C1: replacing the group registered under `name` by
`Session::filter(name, expr)` with a non-empty `expr` discards the old
group's context: the map now holds a freshly constructed group whose
result SequenceSet is empty, and any value a later
`getFiltered(name, start, stop)` returns was inserted by a worker event
after the replacement — no read returns a value stored only in the old
set. -/
theorem Session.filter_replace_discards_old_set
    (s : SessionState) (name expr : String)
    (hexpr : expr ≠ "") (_hold : (lookupG s.filterThreads name).isSome = true) :
    (lookupG (Session.filter s name expr).filterThreads name).map
        (fun c => (c.packets, c.filter)) = some (SequenceSet.empty, expr)
    ∧ ∀ evs start stop x,
        x ∈ Session.getFiltered (runTrace (Session.filter s name expr) evs)
              name start stop →
        Event.workerInsert name x ∈ evs := by
  constructor
  · rw [lookupG_filter_self]
    simp [hexpr]
  · intro evs start stop x hx
    have h1 := mem_getFiltered hx
    rcases mem_groupSet_runTrace evs name x (Session.filter s name expr) h1 with h2 | h2
    · exfalso
      have hl := lookupG_filter_self s name expr
      simp [groupSet, hl, hexpr, SequenceSet.empty] at h2
    · exact h2

/-- C1 witness: instantiated at a session whose group "f" holds 5. -/
theorem Session.filter_replace_discards_old_set_inst :
    (lookupG (Session.filter sGrpW "f" "seq>2").filterThreads "f").map
        (fun c => (c.packets, c.filter)) = some (SequenceSet.empty, "seq>2") :=
  (Session.filter_replace_discards_old_set sGrpW "f" "seq>2"
    (by decide) (by decide)).1

/-- C2: between two deliveries the batch the log callback receives has at
most one entry per deduplication key, each delivered entry is the last
message emitted under its key, the deduplication map is left empty by the
delivery, and emitting the same message `n + 1` times yields the batch of
emitting it once. -/
theorem Session.log_batch_dedup (s : SessionState) (hs : s.recentLogs = [])
    (msgs : List LogMessage) :
    ((deliverLogs (msgs.foldl logRecord s)).1.map LogMessage.key).Nodup
    ∧ (∀ m ∈ (deliverLogs (msgs.foldl logRecord s)).1, lastKey msgs m.key = some m)
    ∧ (deliverLogs (msgs.foldl logRecord s)).2.recentLogs = []
    ∧ ∀ (m : LogMessage) (n : Nat),
        (deliverLogs ((List.replicate (n + 1) m).foldl logRecord s)).1
          = (deliverLogs ([m].foldl logRecord s)).1 := by
  have hrec : (msgs.foldl logRecord s).recentLogs = msgs.foldl logStep [] := by
    rw [recentLogs_foldl, hs]
  have hwf : WfLogMap (msgs.foldl logStep []) :=
    wf_foldl msgs [] ⟨List.nodup_nil, by simp⟩
  refine ⟨?_, ?_, rfl, ?_⟩
  · show (((msgs.foldl logRecord s).recentLogs.map Prod.snd).map LogMessage.key).Nodup
    rw [hrec, values_keys_eq hwf.2]
    exact hwf.1
  · intro m hm
    have hm2 : m ∈ (msgs.foldl logStep []).map Prod.snd := by
      rw [← hrec]
      exact hm
    have h2 := lookup_of_mem_values hwf hm2
    have h3 := lookupLog_foldl msgs m.key []
    rw [h2] at h3
    cases hl : lastKey msgs m.key with
    | some r =>
      rw [hl] at h3
      simpa using h3.symm
    | none =>
      rw [hl] at h3
      simp [lookupLog] at h3
  · intro m n
    rw [foldl_replicate m n s]
    rfl

/-- C2 witness: concrete batch over `msgsW` has pairwise-distinct keys. -/
theorem Session.log_batch_dedup_inst :
    ((deliverLogs (msgsW.foldl logRecord (initPrivate 0))).1.map LogMessage.key).Nodup :=
  (Session.log_batch_dedup (initPrivate 0) rfl msgsW).1

/-- C3: `Session::filter(name, "")` removes exactly the group under `name`
and constructs nothing, so after any further worker-insert events every
`getFiltered(name, start, stop)` returns the empty list. -/
theorem Session.filter_empty_removes_group (s : SessionState) (name : String) :
    (∀ k, lookupG (Session.filter s name "").filterThreads k
        = if k = name then none else lookupG s.filterThreads k)
    ∧ ∀ evs, evs.all Event.isInsert = true →
        ∀ start stop,
          Session.getFiltered (runTrace (Session.filter s name "") evs)
            name start stop = [] := by
  constructor
  · intro k
    by_cases h : k = name
    · subst h
      simp [lookupG_filter_self]
    · simp [h, lookupG_filter_ne s "" h]
  · intro evs hall start stop
    have h0 : lookupG (Session.filter s name "").filterThreads name = none := by
      simp [lookupG_filter_self]
    have h1 := lookupG_none_runTrace evs name (Session.filter s name "") hall h0
    simp [Session.getFiltered, h1]

/-- C3 witness: removing group "f" then replaying a worker insert still
reads empty. -/
theorem Session.filter_empty_removes_group_inst :
    Session.getFiltered
      (runTrace (Session.filter sGrpW "f" "") [Event.workerInsert "f" 9])
      "f" 0 100 = [] :=
  (Session.filter_empty_removes_group sGrpW "f").2
    [Event.workerInsert "f" 9] (by decide) 0 100

/-- C4: every status delivery carries exactly the session's capturing flag,
`store.maxSeq()`, and one size entry per installed filter group under that
group's name. -/
theorem Session.status_payload_shape (s : SessionState) :
    (statusPayload s).capturing = s.capturing
    ∧ (statusPayload s).packets = s.store.maxSeq
    ∧ (statusPayload s).filtered.map Prod.fst = s.filterThreads.map Prod.fst
    ∧ ∀ name, lookupN (statusPayload s).filtered name
        = (lookupG s.filterThreads name).map (fun c => c.packets.size) := by
  refine ⟨rfl, rfl, ?_, ?_⟩
  · simp [statusPayload, List.map_map, Function.comp]
  · intro name
    exact lookupN_statusFiltered s.filterThreads name

/-- C5 counterexample: a packet that already carries the single namespace
root layer (namespace "n" with the captured bytes as payload) is still
wrapped again by `Session::analyze` — the enqueued packet carries two
copies of the layer instead of being enqueued unchanged. -/
theorem Session.analyze_rewraps_existing_root :
    (Session.analyze sessW pktW).queue.items
        = [{ payload := [170], layers := [rawW, rawW] }]
    ∧ (Session.analyze sessW pktW).queue.items ≠ [pktW] := by
  refine ⟨rfl, ?_⟩
  decide

/-- C5 amended: `Session::analyze` unconditionally appends a fresh layer
(session namespace, name "Raw Layer", payload = the packet's captured
bytes) to the packet's layer list — even when such a root layer is already
present — and pushes the packet onto the PacketQueue (a silent no-op when
the queue is closed); the store and the filter groups are untouched. -/
theorem Session.analyze_always_wraps (s : SessionState) (pkt : Packet) :
    (Session.analyze s pkt).queue
        = s.queue.push
            { pkt with layers := pkt.layers ++ [⟨s.ns, "Raw Layer", pkt.payload⟩] }
    ∧ (s.queue.closed = false →
        (Session.analyze s pkt).queue.items
          = s.queue.items
              ++ [{ pkt with layers := pkt.layers ++ [⟨s.ns, "Raw Layer", pkt.payload⟩] }])
    ∧ (Session.analyze s pkt).store = s.store
    ∧ (Session.analyze s pkt).filterThreads = s.filterThreads
    ∧ (Session.analyze s pkt).capturing = s.capturing := by
  refine ⟨rfl, ?_, rfl, rfl, rfl⟩
  intro h
  simp [Session.analyze, PacketQueue.push, h]

/-- C5 witness: the amended behavior evaluated on the concrete session and
packet of the counterexample. -/
theorem Session.analyze_always_wraps_inst :
    (Session.analyze sessW pktW).queue.items
      = sessW.queue.items
          ++ [{ pktW with layers := pktW.layers ++ [⟨sessW.ns, "Raw Layer", pktW.payload⟩] }] :=
  (Session.analyze_always_wraps sessW pktW).2.1 rfl

/-- C6: for configured thread count `n` (the "threads" option, defaulting
to the hardware concurrency) the effective count is `max 1 (n - 1)`, and
it is used for the dissector thread count, the stream-dispatcher thread
count, and the worker count of every newly installed filter group. -/
theorem Session.effective_thread_count (hw indet : Int) (cfg : SessionConfig) :
    (mkSession hw indet (some cfg)).threads = max 1 ((cfg.threads.getD hw) - 1)
    ∧ (mkSession hw indet (some cfg)).dissectorThreads
        = (max 1 ((cfg.threads.getD hw) - 1)).toNat
    ∧ (mkSession hw indet (some cfg)).streamDispatcher
        = some ⟨max 1 ((cfg.threads.getD hw) - 1)⟩
    ∧ ∀ name expr, expr ≠ "" →
        (lookupG (Session.filter (mkSession hw indet (some cfg)) name expr).filterThreads
            name).map FilterContext.workers
          = some (max 1 ((cfg.threads.getD hw) - 1)).toNat := by
  refine ⟨rfl, rfl, rfl, ?_⟩
  intro name expr h
  rw [lookupG_filter_self]
  simp [h, mkSession]

/-- C6 witness: with "threads": 4 configured, groups get 3 workers. -/
theorem Session.effective_thread_count_inst :
    (lookupG (Session.filter (mkSession 8 0 (some cfgW)) "g" "ip").filterThreads
        "g").map FilterContext.workers = some 3 := by
  have h := (Session.effective_thread_count 8 0 cfgW).2.2.2 "g" "ip" (by decide)
  simpa [cfgW] using h

/-- Evaluation of the action trace of `Session::start`. -/
theorem start_trace (s : SessionState) :
    (Session.start s).2
      = [ControlAction.pcapStart, ControlAction.setCapturing true,
         ControlAction.raiseStatus] := rfl

/-- Evaluation of the action trace of `Session::stop`. -/
theorem stop_trace (s : SessionState) :
    (Session.stop s).2
      = [ControlAction.pcapStop, ControlAction.setCapturing false,
         ControlAction.raiseStatus] := rfl

/-- C7: `start()` sets capturing and raises the status signal after
starting the frame source, `stop()` clears capturing and raises the
status signal after stopping it; neither touches the store, the queue
contents, or the installed filter groups. -/
theorem Session.start_stop_effects (s : SessionState) :
    (Session.start s).1.capturing = true
    ∧ (Session.stop s).1.capturing = false
    ∧ (Session.start s).2.indexOf ControlAction.pcapStart
        < (Session.start s).2.indexOf ControlAction.raiseStatus
    ∧ ControlAction.pcapStart ∈ (Session.start s).2
    ∧ ControlAction.raiseStatus ∈ (Session.start s).2
    ∧ (Session.stop s).2.indexOf ControlAction.pcapStop
        < (Session.stop s).2.indexOf ControlAction.raiseStatus
    ∧ ControlAction.pcapStop ∈ (Session.stop s).2
    ∧ ControlAction.raiseStatus ∈ (Session.stop s).2
    ∧ (Session.start s).1.store = s.store
    ∧ (Session.start s).1.queue = s.queue
    ∧ (Session.start s).1.filterThreads = s.filterThreads
    ∧ (Session.stop s).1.store = s.store
    ∧ (Session.stop s).1.queue = s.queue
    ∧ (Session.stop s).1.filterThreads = s.filterThreads := by
  refine ⟨rfl, rfl, by rw [start_trace s]; decide, by rw [start_trace s]; decide,
    by rw [start_trace s]; decide, by rw [stop_trace s]; decide,
    by rw [stop_trace s]; decide, by rw [stop_trace s]; decide,
    rfl, rfl, rfl, rfl, rfl, rfl⟩

/-- C8: the destructor closes the PacketQueue before the dissector thread
pool, the filter groups, the stream dispatcher, and the frame source are
destroyed. -/
theorem Session.destructor_closes_queue_first :
    destructorActions.indexOf TeardownAction.closeQueue
        < destructorActions.indexOf TeardownAction.destroyDissectorThreads
    ∧ destructorActions.indexOf TeardownAction.closeQueue
        < destructorActions.indexOf TeardownAction.destroyFilterThreads
    ∧ destructorActions.indexOf TeardownAction.closeQueue
        < destructorActions.indexOf TeardownAction.destroyStreamDispatcher
    ∧ destructorActions.indexOf TeardownAction.closeQueue
        < destructorActions.indexOf TeardownAction.destroyPcap
    ∧ TeardownAction.closeQueue ∈ destructorActions
    ∧ TeardownAction.destroyDissectorThreads ∈ destructorActions
    ∧ TeardownAction.destroyFilterThreads ∈ destructorActions
    ∧ TeardownAction.destroyStreamDispatcher ∈ destructorActions
    ∧ TeardownAction.destroyPcap ∈ destructorActions := by
  decide

/-- C9: `getFiltered` on a name with no installed group returns the empty
list. -/
theorem Session.getFiltered_unknown_name_empty (s : SessionState) (name : String)
    (start stop : Nat) (h : lookupG s.filterThreads name = none) :
    Session.getFiltered s name start stop = [] := by
  simp [Session.getFiltered, h]

/-- C9 witness: evaluated on the concrete session with no group "nope". -/
theorem Session.getFiltered_unknown_name_empty_inst :
    Session.getFiltered sessW "nope" 1 10 = [] :=
  Session.getFiltered_unknown_name_empty sessW "nope" 1 10 rfl

/-- C10: an empty or non-object option value makes the constructor return
early: no dissector threads, no stream dispatcher, no frame source, empty
namespace, no filter groups. -/
theorem Session.ctor_early_return_state (hw indet : Int) :
    (mkSession hw indet none).dissectorThreads = 0
    ∧ (mkSession hw indet none).streamDispatcher = none
    ∧ (mkSession hw indet none).pcap = none
    ∧ (mkSession hw indet none).ns = ""
    ∧ (mkSession hw indet none).filterThreads = []
    ∧ (mkSession hw indet none).capturing = false :=
  ⟨rfl, rfl, rfl, rfl, rfl, rfl⟩

end Paperfilter
